import Mathlib

/-!
Verification of the wasm-thing binary-module decoder.

Shallow embedding of the Rust sources:
  * `src/src/types.rs`           — data model (value types, limits, import entries, …)
  * `src/src/decode/mod.rs`      — error taxonomy, magic constants, `decode_bytes`
  * `src/src/decode/decoder.rs`  — varuint primitive and the section decoders

Bytes are modelled as `Nat`; every read of a `u8` reduces the value `% 256`, and
every place the Rust code works in `u32` the embedding keeps the value below
`2 ^ 32` explicitly.  Fallible Rust code (`Result<…>`) becomes `Except DecodeErr …`;
a Rust panic (the `unreachable!` in `From<u8> for WasmValueType`) is modelled as the
distinguished outcome `DecodeErr.panicUnreachable`, which is a *different* outcome
from any `.ok` result.  Byte streams are `List Nat`; a decoder returns the decoded
value together with the unconsumed rest of the stream, mirroring the cursor.
-/

namespace WasmThing

/-- Error outcomes.  The first six constructors are the `DecodeError` enum from
`src/src/decode/mod.rs`; `endOfInput` models a failed `read_exact` (an `std::io`
error through `anyhow`), `invalidImportKind` models the
anyhow `Invalid import kind` failure, `invalidUtf8` models a failed
`String::from_utf8`, `panicUnreachable` models the `unreachable!` panic in
`From<u8> for WasmValueType`, and `unknownSectionKind` models the dispatch-loop
failure on an unrecognized section kind (spec §4.7). -/
inductive DecodeErr where
  | binary (expected found : List Nat)
  | numeric (current_value invalid_byte : Nat)
  | typeSectionBytes
  | elementType (invalid_byte : Nat)
  | mutabilityByte (invalid_byte : Nat)
  | opCode (opcode : Nat)
  | endOfInput
  | invalidImportKind (kind : Nat)
  | invalidUtf8
  | panicUnreachable (byte : Nat)
  | unknownSectionKind (kind : Nat)
deriving DecidableEq, Repr

/-- Enum `WasmValueType` from `src/src/types.rs`. -/
inductive WasmValueType where
  | I32
  | I64
  | F32
  | F64
  | UNSUPPORTED
deriving DecidableEq, Repr

/-- Conversion `impl From<u8> for WasmValueType` (`src/src/types.rs` lines 44–56): the match
maps `0x7f/0x7e/0x7d/0x7c` to the four numeric types and hits
`unreachable!` (message `Unknown WashValueType`) on every other byte.  The panic is
modelled as `none`; the `UNSUPPORTED` variant is never produced. -/
def wasmValueTypeFromU8 (x : Nat) : Option WasmValueType :=
  if x = 0x7f then some .I32
  else if x = 0x7e then some .I64
  else if x = 0x7d then some .F32
  else if x = 0x7c then some .F64
  else none

/-- Struct `WasmFunctionType` from `src/src/types.rs`. -/
structure WasmFunctionType where
  params : List WasmValueType
  returns : List WasmValueType
deriving DecidableEq, Repr

/-- Enum `WasmElementType` from `src/src/types.rs`. -/
inductive WasmElementType where
  | Funcref
  | Externref
deriving DecidableEq, Repr

/-- Struct `WasmLimits` from `src/src/types.rs`. -/
structure WasmLimits where
  min : Nat
  max : Option Nat
deriving DecidableEq, Repr

/-- Struct `TableType` from `src/src/types.rs`. -/
structure TableType where
  element_type : WasmElementType
  limits : WasmLimits
deriving DecidableEq, Repr

/-- Struct `MemoryType` from `src/src/types.rs`. -/
structure MemoryType where
  limits : WasmLimits
deriving DecidableEq, Repr

/-- Enum `Mutability` from `src/src/types.rs`. -/
inductive Mutability where
  | Immutable
  | Mutable
deriving DecidableEq, Repr

/-- Struct `GlobalType` from `src/src/types.rs`. -/
structure GlobalType where
  value_type : WasmValueType
  mutability : Mutability
deriving DecidableEq, Repr

/-- Enum `WasmImportDescriptor` from `src/src/types.rs`; the function variant carries
the `VarUInt` type index (a `u32`, modelled as `Nat`). -/
inductive WasmImportDescriptor where
  | Function (type_index : Nat)
  | Table (t : TableType)
  | Memory (m : MemoryType)
  | Global (g : GlobalType)
deriving DecidableEq, Repr

/-- Struct `WasmImportEntry` from `src/src/types.rs`.  The Rust `String` fields are
modelled as their UTF-8 byte lists (validated at construction). -/
structure WasmImportEntry where
  module_name : List Nat
  field_name : List Nat
  descriptor : WasmImportDescriptor
deriving DecidableEq, Repr

/-- Enum `WasmSection` from `src/src/types.rs`.  The `TypeSection { items }` and
`ImportSection { items }` wrappers are inlined as the constructor payloads; the
opaque kinds carry `()` in the source and no payload here.  (`Type` is a Lean
keyword, hence the constructor name `TypeSec`.) -/
inductive WasmSection where
  | TypeSec (items : List WasmFunctionType)
  | Custom
  | Import (items : List WasmImportEntry)
  | Table
  | Memory
  | Global
  | Start
  | Element
deriving DecidableEq, Repr

/-- Constant `HEADER_MAGIC_BYTES` from `src/src/decode/mod.rs` line 11.  Note the fourth
byte is `0x64` (ASCII `d`), not `0x6d` (ASCII `m`): the constant spells
`\0asd`, not the WebAssembly magic `\0asm`. -/
def HEADER_MAGIC_BYTES : List Nat := [0x00, 0x61, 0x73, 0x64]

/-- Constant `FUNCTION_MAGIC_BYTES` from `src/src/decode/mod.rs` line 12 (the single byte
`0x60`). -/
def FUNCTION_MAGIC_BYTES : Nat := 0x60

/-- Read one byte from the stream (`read_bytes_const!(reader, 1)[0]`): fails with
a read error when the stream is empty.  The `% 256` records that the value read
is a `u8`. -/
def readByte : List Nat → Except DecodeErr (Nat × List Nat)
  | [] => .error .endOfInput
  | b :: rest => .ok (b % 256, rest)

/-- Read exactly `n` bytes (`read_bytes!` / `read_exact` on the cursor): fails
with a read error when fewer than `n` bytes remain. -/
def readBytes (n : Nat) (l : List Nat) : Except DecodeErr (List Nat × List Nat) :=
  if n ≤ l.length then .ok ((l.take n).map (· % 256), l.drop n) else .error .endOfInput

/-- UTF-8 validity of a byte sequence, as checked by the Rust
function `String::from_utf8` (rejecting continuation-byte errors, overlong encodings,
surrogates `ED A0..BF`, and code points above `U+10FFFF`). -/
def utf8Valid : List Nat → Bool
  | [] => true
  | b :: rest =>
    if b < 0x80 then utf8Valid rest
    else if 0xc2 ≤ b ∧ b ≤ 0xdf then
      match rest with
      | c :: r => if 0x80 ≤ c ∧ c ≤ 0xbf then utf8Valid r else false
      | [] => false
    else if b = 0xe0 then
      match rest with
      | c :: d :: r =>
        if (0xa0 ≤ c ∧ c ≤ 0xbf) ∧ (0x80 ≤ d ∧ d ≤ 0xbf) then utf8Valid r else false
      | _ => false
    else if (0xe1 ≤ b ∧ b ≤ 0xec) ∨ b = 0xee ∨ b = 0xef then
      match rest with
      | c :: d :: r =>
        if (0x80 ≤ c ∧ c ≤ 0xbf) ∧ (0x80 ≤ d ∧ d ≤ 0xbf) then utf8Valid r else false
      | _ => false
    else if b = 0xed then
      match rest with
      | c :: d :: r =>
        if (0x80 ≤ c ∧ c ≤ 0x9f) ∧ (0x80 ≤ d ∧ d ≤ 0xbf) then utf8Valid r else false
      | _ => false
    else if b = 0xf0 then
      match rest with
      | c :: d :: e :: r =>
        if (0x90 ≤ c ∧ c ≤ 0xbf) ∧ (0x80 ≤ d ∧ d ≤ 0xbf) ∧ (0x80 ≤ e ∧ e ≤ 0xbf) then
          utf8Valid r
        else false
      | _ => false
    else if 0xf1 ≤ b ∧ b ≤ 0xf3 then
      match rest with
      | c :: d :: e :: r =>
        if (0x80 ≤ c ∧ c ≤ 0xbf) ∧ (0x80 ≤ d ∧ d ≤ 0xbf) ∧ (0x80 ≤ e ∧ e ≤ 0xbf) then
          utf8Valid r
        else false
      | _ => false
    else if b = 0xf4 then
      match rest with
      | c :: d :: e :: r =>
        if (0x80 ≤ c ∧ c ≤ 0x8f) ∧ (0x80 ≤ d ∧ d ≤ 0xbf) ∧ (0x80 ≤ e ∧ e ≤ 0xbf) then
          utf8Valid r
        else false
      | _ => false
    else false

/-- Model of `String::from_utf8(bytes)?` — hard failure on invalid UTF-8 (no lossy
replacement), as in the import-section name reads. -/
def from_utf8 (bs : List Nat) : Except DecodeErr (List Nat) :=
  if utf8Valid bs then .ok bs else .error .invalidUtf8

/-- Model of `String::from_utf8(bytes).unwrap_or_default()` — the best-effort rendering
used by `read_validate` for diagnostics: the bytes when they are valid UTF-8,
the empty string otherwise. -/
def utf8OrDefault (bs : List Nat) : List Nat :=
  if utf8Valid bs then bs else []

/-- Loop body of `Decoder::decode_varuint` (`src/src/decode/decoder.rs` lines
49–68): read one byte; `checked_shl(i * 7)` returns `None` — the `Numeric`
error, carrying the value accumulated so far and the offending byte — exactly
when the shift amount `i * 7` is at least 32; otherwise the low 7 bits of the
byte are shifted into place with `u32` semantics (bits at or above bit 32 are
discarded, hence the `% 2 ^ 32`) and added; a clear continuation bit stops the
loop. -/
def decode_varuint_aux : List Nat → Nat → Nat → Except DecodeErr (Nat × List Nat)
  | [], _, _ => .error .endOfInput
  | b :: rest, i, value =>
    let byte := b % 256
    if 32 ≤ i * 7 then
      .error (.numeric value byte)
    else
      let value := value + byte % 128 * 2 ^ (i * 7) % 2 ^ 32
      if byte < 128 then .ok (value, rest)
      else decode_varuint_aux rest (i + 1) value

/-- Function `Decoder::decode_varuint`: LEB128-style unsigned decode, starting at byte
index 0 with accumulator 0. -/
def decode_varuint (l : List Nat) : Except DecodeErr (Nat × List Nat) :=
  decode_varuint_aux l 0 0

/-- Modelled from the spec: the LEB128 encoding of an unsigned integer
(glossary: each byte holds 7 value bits plus a continuation flag in the high
bit).  There is no write path in the repository; this encoder exists only to
state the round-trip property.  The fuel argument merely bounds the recursion
depth so that the definition is structural; `encodeLEB` supplies enough fuel. -/
def encodeLEBAux (fuel v : Nat) : List Nat :=
  match fuel with
  | 0 => []
  | fuel + 1 => if v < 128 then [v] else (v % 128 + 128) :: encodeLEBAux fuel (v / 128)

/-- Modelled from the spec: LEB128 encoding with always-sufficient fuel. -/
def encodeLEB (v : Nat) : List Nat := encodeLEBAux (v + 1) v

/-- Function `Decoder::read_validate` (`src/src/decode/decoder.rs` lines 89–101): read 4
bytes and compare them with `HEADER_MAGIC_BYTES`; on mismatch fail with
`DecodeError::Binary`, whose `expected`/`found` strings are the byte runs when
they are valid UTF-8 and empty otherwise (`unwrap_or_default`). -/
def read_validate (l : List Nat) : Except DecodeErr (Unit × List Nat) :=
  match readBytes 4 l with
  | .error e => .error e
  | .ok (magic_bytes, rest) =>
    if magic_bytes = HEADER_MAGIC_BYTES then .ok ((), rest)
    else .error (.binary (utf8OrDefault HEADER_MAGIC_BYTES) (utf8OrDefault magic_bytes))

/-- Function `Decoder::read_version`: read 4 bytes and combine them as a little-endian
`u32`. -/
def read_version (l : List Nat) : Except DecodeErr (Nat × List Nat) :=
  match readBytes 4 l with
  | .error e => .error e
  | .ok (bs, rest) =>
    .ok (bs.getD 0 0 + 256 * (bs.getD 1 0 + 256 * (bs.getD 2 0 + 256 * bs.getD 3 0)), rest)

/-- The `read_value_types` closure inside `decode_type_section`: decode `count`
value types, each read as a varuint and converted through
`WasmValueType::from(VarUInt)` — i.e. through the panicking `From<u8>`
conversion on the low byte of the value. -/
def read_value_types : Nat → List Nat → Except DecodeErr (List WasmValueType × List Nat)
  | 0, l => .ok ([], l)
  | count + 1, l => do
    let (v, l) ← decode_varuint l
    match wasmValueTypeFromU8 (v % 256) with
    | none => .error (.panicUnreachable (v % 256))
    | some t => do
      let (ts, l) ← read_value_types count l
      pure (t :: ts, l)

/-- One entry of the type section (`decode_type_section`, loop body): require
the `0x60` magic byte (else `TypeSectionBytes`), then — in the order the source
actually executes — read the parameter count, then the return count, then the
parameter value types, then the return value types.  (The bindings
`param_count` and `return_count` are both evaluated before the `params` and
`returns` fields of the struct literal.) -/
def decode_function_type (l : List Nat) : Except DecodeErr (WasmFunctionType × List Nat) := do
  let (magic, l) ← readByte l
  if magic = FUNCTION_MAGIC_BYTES then do
    let (param_count, l) ← decode_varuint l
    let (return_count, l) ← decode_varuint l
    let (params, l) ← read_value_types param_count l
    let (returns, l) ← read_value_types return_count l
    pure (⟨params, returns⟩, l)
  else .error .typeSectionBytes

/-- The `(0..size).map(…).collect::<Result<Vec<_>>>` loop of
`decode_type_section`: decode `count` function-type entries, failing on the
first error. -/
def decode_function_types : Nat → List Nat → Except DecodeErr (List WasmFunctionType × List Nat)
  | 0, l => .ok ([], l)
  | count + 1, l => do
    let (t, l) ← decode_function_type l
    let (ts, l) ← decode_function_types count l
    pure (t :: ts, l)

/-- Shared framing idiom of the section decoders: `read_bytes!(reader, size)`
slices the declared number of bytes out of the primary stream (failing when
fewer remain) and the continuation works on that slice only — a fresh bounded
cursor in the source.  Any bytes of the slice the continuation leaves
unconsumed are dropped; the primary stream resumes right after the slice. -/
def slice_section (size : Nat) (l : List Nat)
    (k : List Nat → Except DecodeErr WasmSection) : Except DecodeErr (WasmSection × List Nat) :=
  match readBytes size l with
  | .error e => .error e
  | .ok (section_bytes, rest) =>
    match k section_bytes with
    | .error e => .error e
    | .ok s => .ok (s, rest)

/-- Body of `decode_type_section` on the sliced section bytes: a varuint count
followed by that many function-type entries. -/
def decode_type_section_inner (section_bytes : List Nat) : Except DecodeErr WasmSection := do
  let (size, l) ← decode_varuint section_bytes
  let (items, _) ← decode_function_types size l
  pure (.TypeSec items)

/-- Function `Decoder::decode_type_section` (`src/src/decode/decoder.rs` lines 118–153). -/
def decode_type_section (size : Nat) (l : List Nat) : Except DecodeErr (WasmSection × List Nat) :=
  slice_section size l decode_type_section_inner

/-- Function `Decoder::decode_table_type` (`src/src/decode/decoder.rs` lines 205–234):
element-type byte (only `0x70` = `Funcref`; else `ElementType` error), then the
limits: a flag byte, a varuint minimum, and a varuint maximum iff bit 0 of the
flag is set. -/
def decode_table_type (l : List Nat) : Except DecodeErr (TableType × List Nat) := do
  let (element_type_byte, l) ← readByte l
  if element_type_byte = 0x70 then do
    let (flags, l) ← readByte l
    let (min, l) ← decode_varuint l
    if flags % 2 = 1 then do
      let (max, l) ← decode_varuint l
      pure (⟨.Funcref, ⟨min, some max⟩⟩, l)
    else
      pure (⟨.Funcref, ⟨min, none⟩⟩, l)
  else .error (.elementType element_type_byte)

/-- Function `Decoder::decode_memory_type` (`src/src/decode/decoder.rs` lines 236–250):
the limits alone. -/
def decode_memory_type (l : List Nat) : Except DecodeErr (MemoryType × List Nat) := do
  let (flags, l) ← readByte l
  let (min, l) ← decode_varuint l
  if flags % 2 = 1 then do
    let (max, l) ← decode_varuint l
    pure (⟨⟨min, some max⟩⟩, l)
  else
    pure (⟨⟨min, none⟩⟩, l)

/-- Function `Decoder::decode_global_type` (`src/src/decode/decoder.rs` lines 252–274):
a value-type byte converted through `WasmValueType::from(VarUInt::from(byte as
u32))` — the panicking `From<u8>` conversion — then a mutability byte that must
be `0x00` (`Immutable`) or `0x01` (`Mutable`); any other byte fails with
`MutabilityByte` carrying it. -/
def decode_global_type (l : List Nat) : Except DecodeErr (GlobalType × List Nat) := do
  let (value_type_byte, l) ← readByte l
  match wasmValueTypeFromU8 value_type_byte with
  | none => .error (.panicUnreachable value_type_byte)
  | some value_type => do
    let (mutability_byte, l) ← readByte l
    if mutability_byte = 0x00 then pure (⟨value_type, .Immutable⟩, l)
    else if mutability_byte = 0x01 then pure (⟨value_type, .Mutable⟩, l)
    else .error (.mutabilityByte mutability_byte)

/-- The `match import_kind` of `decode_import_section`: `0x00` function
type-index varuint, `0x01` table type, `0x02` memory type, `0x03` global type,
anything else the anyhow `Invalid import kind` failure. -/
def decode_import_descriptor (import_kind : Nat) (l : List Nat) :
    Except DecodeErr (WasmImportDescriptor × List Nat) :=
  if import_kind = 0x00 then do
    let (idx, l) ← decode_varuint l
    pure (.Function idx, l)
  else if import_kind = 0x01 then do
    let (t, l) ← decode_table_type l
    pure (.Table t, l)
  else if import_kind = 0x02 then do
    let (m, l) ← decode_memory_type l
    pure (.Memory m, l)
  else if import_kind = 0x03 then do
    let (g, l) ← decode_global_type l
    pure (.Global g, l)
  else .error (.invalidImportKind import_kind)

/-- One entry of the import section (`decode_import_section`, loop body):
length-prefixed UTF-8 module name, length-prefixed UTF-8 field name, a 1-byte
kind discriminant, and the descriptor selected by that kind. -/
def decode_import_entry (l : List Nat) : Except DecodeErr (WasmImportEntry × List Nat) := do
  let (module_name_length, l) ← decode_varuint l
  let (module_bytes, l) ← readBytes module_name_length l
  let module_name ← from_utf8 module_bytes
  let (field_name_length, l) ← decode_varuint l
  let (field_bytes, l) ← readBytes field_name_length l
  let field_name ← from_utf8 field_bytes
  let (import_kind, l) ← readByte l
  let (descriptor, l) ← decode_import_descriptor import_kind l
  pure (⟨module_name, field_name, descriptor⟩, l)

/-- The `for _ in 0..count` loop of `decode_import_section`, pushing entries in
declaration order and failing on the first error. -/
def decode_import_entries : Nat → List Nat → Except DecodeErr (List WasmImportEntry × List Nat)
  | 0, l => .ok ([], l)
  | count + 1, l => do
    let (e, l) ← decode_import_entry l
    let (es, l) ← decode_import_entries count l
    pure (e :: es, l)

/-- Body of `decode_import_section` on the sliced section bytes: a varuint
count followed by that many import entries. -/
def decode_import_section_inner (section_bytes : List Nat) : Except DecodeErr WasmSection := do
  let (count, l) ← decode_varuint section_bytes
  let (items, _) ← decode_import_entries count l
  pure (.Import items)

/-- Function `Decoder::decode_import_section` (`src/src/decode/decoder.rs` lines
169–203). -/
def decode_import_section (size : Nat) (l : List Nat) :
    Except DecodeErr (WasmSection × List Nat) :=
  slice_section size l decode_import_section_inner

/-- The `decode_dummy_section!` macro body (`src/src/decode/decoder.rs` lines
10–22): read exactly `size` bytes from the primary cursor without interpreting
them and return the payload-less section marker `sec`. -/
def decode_dummy_section (sec : WasmSection) (size : Nat) (l : List Nat) :
    Except DecodeErr (WasmSection × List Nat) :=
  slice_section size l (fun _ => .ok sec)

/-- Function `decode_custom_section` — `decode_dummy_section!` instantiated at `Custom`. -/
def decode_custom_section (size : Nat) (l : List Nat) : Except DecodeErr (WasmSection × List Nat) :=
  decode_dummy_section .Custom size l

/-- Function `decode_table_section` — `decode_dummy_section!` instantiated at `Table`. -/
def decode_table_section (size : Nat) (l : List Nat) : Except DecodeErr (WasmSection × List Nat) :=
  decode_dummy_section .Table size l

/-- Function `decode_memory_section` — `decode_dummy_section!` instantiated at `Memory`. -/
def decode_memory_section (size : Nat) (l : List Nat) : Except DecodeErr (WasmSection × List Nat) :=
  decode_dummy_section .Memory size l

/-- Function `decode_global_section` — `decode_dummy_section!` instantiated at `Global`. -/
def decode_global_section (size : Nat) (l : List Nat) : Except DecodeErr (WasmSection × List Nat) :=
  decode_dummy_section .Global size l

/-- Function `decode_start_section` — `decode_dummy_section!` instantiated at `Start`. -/
def decode_start_section (size : Nat) (l : List Nat) : Except DecodeErr (WasmSection × List Nat) :=
  decode_dummy_section .Start size l

/-- Function `decode_element_section` — `decode_dummy_section!` instantiated at `Element`. -/
def decode_element_section (size : Nat) (l : List Nat) : Except DecodeErr (WasmSection × List Nat) :=
  decode_dummy_section .Element size l

/-- Modelled from the spec: the kind-indexed dispatch table of `decode_section`
(§4.7), whose body is not under `src/` (only its caller `decode_bytes` is).
The spec routes the type and import sections to §4.4/§4.5 and the five opaque
kinds to §4.6, and makes every other kind a decode failure; the numeric kind
ids are the WebAssembly section ids these decoders correspond to (0 custom,
1 type, 2 import, 4 table, 5 memory, 6 global, 8 start, 9 element).  For a
recognized kind the result is the continuation run on the sliced payload. -/
def section_kont (kind : Nat) : Option (List Nat → Except DecodeErr WasmSection) :=
  if kind = 0 then some (fun _ => .ok .Custom)
  else if kind = 1 then some decode_type_section_inner
  else if kind = 2 then some decode_import_section_inner
  else if kind = 4 then some (fun _ => .ok .Table)
  else if kind = 5 then some (fun _ => .ok .Memory)
  else if kind = 6 then some (fun _ => .ok .Global)
  else if kind = 8 then some (fun _ => .ok .Start)
  else if kind = 9 then some (fun _ => .ok .Element)
  else none

/-- Modelled from the spec: `decode_section` (§4.7) — dispatch by kind to the
matching section decoder, each of which slices exactly `size` bytes; unknown
kinds are a hard decode failure. -/
def decode_section (kind size : Nat) (l : List Nat) : Except DecodeErr (WasmSection × List Nat) :=
  match section_kont kind with
  | some k => slice_section size l k
  | none => .error (.unknownSectionKind kind)

/-- Modelled from the spec: `decode_section_type` (§4.7) — read the 1-byte
section-kind discriminant and the varuint section size. -/
def decode_section_type (l : List Nat) : Except DecodeErr ((Nat × Nat) × List Nat) := do
  let (kind, l) ← readByte l
  let (size, l) ← decode_varuint l
  pure ((kind, size), l)

/-- Modelled from the spec: the `while !decoder.is_end` loop of `decode_bytes`
(§4.7) — while bytes remain, read a (kind, size) pair, decode the section, and
accumulate the results in encounter order (the `consume` operation of the
module aggregate).
The fuel argument only makes the recursion structural; every successful
iteration consumes at least the kind byte, so `decode_bytes` supplies enough
fuel and the fuel-exhaustion branch is unreachable there. -/
def decode_sections : Nat → List Nat → Except DecodeErr (List WasmSection)
  | _, [] => .ok []
  | 0, _ :: _ => .error .endOfInput
  | fuel + 1, b :: l => do
    let ((kind, size), l) ← decode_section_type (b :: l)
    let (sec, l) ← decode_section kind size l
    let secs ← decode_sections fuel l
    pure (sec :: secs)

/-- Function `decode_bytes` (`src/src/decode/mod.rs` lines 42–57): validate the header
magic, read the version, then run the section loop until the input is
exhausted.  The external `WasmModule` aggregate is modelled as the pair of the
version and the list of sections in encounter order. -/
def decode_bytes (l : List Nat) : Except DecodeErr (Nat × List WasmSection) := do
  let (_, l) ← read_validate l
  let (version, l) ← read_version l
  let secs ← decode_sections l.length l
  pure (version, secs)

/-- A correctly framed section: a recognized (or at least in-range) kind byte,
the LEB128 size prefix of a `u32` size, exactly `size` payload bytes, and a
section decode that succeeds on the payload alone. -/
def FrameOk (f : List Nat) (s : WasmSection) : Prop :=
  ∃ kind size payload, kind < 256 ∧ size < 2 ^ 32 ∧
    f = kind :: (encodeLEB size ++ payload) ∧ payload.length = size ∧
    decode_section kind size payload = .ok (s, [])

end WasmThing

namespace WasmThing

/-- Fuel irrelevance for the LEB128 encoder: any sufficient fuel gives the same
byte list. -/
theorem encodeLEBAux_irrel : ∀ f1 f2 v, v < f1 → v < f2 → encodeLEBAux f1 v = encodeLEBAux f2 v := by
  intro f1
  induction f1 with
  | zero => intro f2 v h1 _; omega
  | succ f1 ih =>
    intro f2 v h1 h2
    cases f2 with
    | zero => omega
    | succ f2 =>
      rw [encodeLEBAux, encodeLEBAux]
      by_cases hv : v < 128
      · simp [hv]
      · simp only [if_neg hv]
        congr 1
        exact ih f2 (v / 128) (by omega) (by omega)

/-- Unfolding equation for `encodeLEB`. -/
theorem encodeLEB_eq (v : Nat) :
    encodeLEB v = if v < 128 then [v] else (v % 128 + 128) :: encodeLEB (v / 128) := by
  unfold encodeLEB
  rw [encodeLEBAux]
  by_cases hv : v < 128
  · simp [hv]
  · simp only [if_neg hv]
    congr 1
    exact encodeLEBAux_irrel (v + 1 - 1) (v / 128 + 1) (v / 128) (by omega) (by omega)

/-- A power of 128 that fits below `2 ^ 32` has exponent at most 4. -/
theorem pow7_le_of_le (i : Nat) (h : 2 ^ (i * 7) ≤ 2 ^ 32) : i ≤ 4 := by
  by_contra hc
  have h35 : (2 : Nat) ^ 35 ≤ 2 ^ (i * 7) := Nat.pow_le_pow_right (by omega) (by omega)
  have h2 : (2 : Nat) ^ 32 < 2 ^ 35 := by norm_num
  omega

/-- The varuint loop on a final (continuation-clear) byte whose group fits. -/
theorem decode_varuint_aux_last (v i acc : Nat) (rest : List Nat)
    (hv : v < 128) (hi : i * 7 < 32) (hlt : v * 2 ^ (i * 7) < 2 ^ 32) :
    decode_varuint_aux (v :: rest) i acc = .ok (acc + v * 2 ^ (i * 7), rest) := by
  rw [decode_varuint_aux]
  have h256 : v % 256 = v := Nat.mod_eq_of_lt (by omega)
  have h128 : v % 128 = v := Nat.mod_eq_of_lt hv
  simp only [h256, h128, if_neg (by omega : ¬ 32 ≤ i * 7), Nat.mod_eq_of_lt hlt, if_pos hv]

/-- Round-trip of the varuint loop over a LEB128-encoded value, generalized
over the byte index and the accumulator; `d` bounds the number of 7-bit
groups. -/
theorem decode_varuint_aux_encodeLEB :
    ∀ (d v i acc : Nat) (rest : List Nat), v < 128 ^ d →
      (v + 1) * 2 ^ (i * 7) ≤ 2 ^ 32 → acc < 2 ^ (i * 7) →
      decode_varuint_aux (encodeLEB v ++ rest) i acc = .ok (acc + v * 2 ^ (i * 7), rest) := by
  intro d
  induction d with
  | zero =>
    intro v i acc rest hd hv hacc
    have hv0 : v = 0 := by norm_num at hd; omega
    subst hv0
    have hi32 : 2 ^ (i * 7) ≤ 2 ^ 32 := le_trans (by nlinarith [Nat.one_le_two_pow (n := i * 7)]) hv
    have hi4 := pow7_le_of_le i hi32
    exact decode_varuint_aux_last 0 i acc rest (by norm_num) (by omega) (by norm_num)
  | succ d ih =>
    intro v i acc rest hd hv hacc
    have hpos : 1 ≤ 2 ^ (i * 7) := Nat.one_le_two_pow
    have hi32 : 2 ^ (i * 7) ≤ 2 ^ 32 := le_trans (by nlinarith) hv
    have hi4 : i ≤ 4 := pow7_le_of_le i hi32
    have hi : i * 7 < 32 := by omega
    by_cases hsmall : v < 128
    · rw [encodeLEB_eq, if_pos hsmall]
      have hlt : v * 2 ^ (i * 7) < 2 ^ 32 := by nlinarith
      exact decode_varuint_aux_last v i acc rest hsmall hi hlt
    · rw [encodeLEB_eq, if_neg hsmall, List.cons_append, decode_varuint_aux]
      have hi3 : i ≤ 3 := by
        by_contra hc
        have hi4' : i = 4 := by omega
        subst hi4'
        have h16 : (v + 1) * 2 ^ (4 * 7) ≤ 16 * 2 ^ (4 * 7) := by
          calc (v + 1) * 2 ^ (4 * 7) ≤ 2 ^ 32 := hv
            _ = 16 * 2 ^ (4 * 7) := by norm_num
        have := Nat.le_of_mul_le_mul_right h16 (by norm_num : 0 < 2 ^ (4 * 7))
        omega
      have hb : (v % 128 + 128) % 256 = v % 128 + 128 := by omega
      have hbm : (v % 128 + 128) % 128 = v % 128 := by omega
      have hmod127 : v % 128 ≤ 127 := by omega
      have hnotrunc : v % 128 * 2 ^ (i * 7) < 2 ^ 32 := by
        calc v % 128 * 2 ^ (i * 7) ≤ 127 * 2 ^ (i * 7) := Nat.mul_le_mul_right _ hmod127
          _ ≤ 127 * 2 ^ (3 * 7) := Nat.mul_le_mul_left _ (Nat.pow_le_pow_right (by omega) (by omega))
          _ < 2 ^ 32 := by norm_num
      simp only [hb, hbm, if_neg (by omega : ¬ 32 ≤ i * 7), Nat.mod_eq_of_lt hnotrunc,
        if_neg (by omega : ¬ v % 128 + 128 < 128)]
      -- the recursive call of the loop on the remaining groups
      obtain ⟨m, hm1, hm2⟩ : ∃ m, i * 7 + m = 32 ∧ 7 ≤ m := ⟨32 - i * 7, by omega⟩
      have h32 : (2 : Nat) ^ 32 = 2 ^ (i * 7) * 2 ^ m := by
        rw [← pow_add]; congr 1; omega
      have hvm : v + 1 ≤ 2 ^ m := by
        have h' : 2 ^ (i * 7) * (v + 1) ≤ 2 ^ (i * 7) * 2 ^ m := by
          rw [mul_comm (2 ^ (i * 7)) (v + 1), ← h32]; exact hv
        exact Nat.le_of_mul_le_mul_left h' (by positivity)
      obtain ⟨m', hm'⟩ : ∃ m', m = m' + 7 := ⟨m - 7, by omega⟩
      have hdiv : v / 128 < 2 ^ m' := by
        rw [Nat.div_lt_iff_lt_mul (by norm_num : 0 < 128)]
        calc v < 2 ^ m := by omega
          _ = 2 ^ m' * 128 := by rw [hm', pow_add]; norm_num
      have hv' : (v / 128 + 1) * 2 ^ ((i + 1) * 7) ≤ 2 ^ 32 := by
        calc (v / 128 + 1) * 2 ^ ((i + 1) * 7)
            ≤ 2 ^ m' * 2 ^ ((i + 1) * 7) := Nat.mul_le_mul_right _ (by omega)
          _ = 2 ^ 32 := by rw [← pow_add]; congr 1; omega
      have hiv : (2 : Nat) ^ ((i + 1) * 7) = 2 ^ (i * 7) * 128 := by
        rw [show (i + 1) * 7 = i * 7 + 7 by ring, pow_add]; norm_num
      have hacc' : acc + v % 128 * 2 ^ (i * 7) < 2 ^ ((i + 1) * 7) := by
        have h1 : v % 128 * 2 ^ (i * 7) ≤ 127 * 2 ^ (i * 7) := Nat.mul_le_mul_right _ hmod127
        rw [hiv]
        omega
      have hd' : v / 128 < 128 ^ d := by
        rw [Nat.div_lt_iff_lt_mul (by norm_num : 0 < 128)]
        calc v < 128 ^ (d + 1) := hd
          _ = 128 ^ d * 128 := by rw [pow_succ]
      rw [ih (v / 128) (i + 1) (acc + v % 128 * 2 ^ (i * 7)) rest hd' hv' hacc']
      have key : v % 128 * 2 ^ (i * 7) + v / 128 * 2 ^ ((i + 1) * 7) = v * 2 ^ (i * 7) := by
        calc v % 128 * 2 ^ (i * 7) + v / 128 * 2 ^ ((i + 1) * 7)
            = (v % 128 + v / 128 * 128) * 2 ^ (i * 7) := by rw [hiv]; ring
          _ = v * 2 ^ (i * 7) := by rw [Nat.mod_add_div' v 128]
      congr 2
      omega

/-- Round-trip at the top level: `decode_varuint` on the LEB128 encoding of any
`u32` value consumes exactly the encoding and yields the value. -/
theorem decode_varuint_encodeLEB (v : Nat) (rest : List Nat) (hv : v < 2 ^ 32) :
    decode_varuint (encodeLEB v ++ rest) = .ok (v, rest) := by
  have h := decode_varuint_aux_encodeLEB 5 v 0 0 rest
    (by calc v < 2 ^ 32 := hv
          _ < 128 ^ 5 := by norm_num)
    (by
      calc (v + 1) * 2 ^ (0 * 7) = v + 1 := by norm_num
        _ ≤ 2 ^ 32 := hv)
    (by norm_num)
  simpa [decode_varuint] using h

end WasmThing

namespace WasmThing

/-- The varuint loop returns at the first continuation-clear byte, provided it
occurs at byte index at most `4 - i`. -/
theorem decode_varuint_aux_clear :
    ∀ (j : Nat) (l : List Nat) (i acc : Nat), i + j ≤ 4 → j < l.length →
      (∀ k, k < j → 128 ≤ l.getD k 0 % 256) → l.getD j 0 % 256 < 128 →
      ∃ v, decode_varuint_aux l i acc = .ok (v, l.drop (j + 1)) := by
  intro j
  induction j with
  | zero =>
    intro l i acc hij hlen hcont hclear
    cases l with
    | nil => simp at hlen
    | cons b r =>
      simp only [List.getD_cons_zero] at hclear
      refine ⟨acc + b % 256 % 128 * 2 ^ (i * 7) % 2 ^ 32, ?_⟩
      simp only [decode_varuint_aux, if_neg (by omega : ¬ 32 ≤ i * 7), if_pos hclear]
      simp
  | succ j ih =>
    intro l i acc hij hlen hcont hclear
    cases l with
    | nil => simp at hlen
    | cons b r =>
      have h0 : 128 ≤ b % 256 := by simpa using hcont 0 (by omega)
      simp only [decode_varuint_aux, if_neg (by omega : ¬ 32 ≤ i * 7),
        if_neg (by omega : ¬ b % 256 < 128)]
      have hrec := ih r (i + 1) (acc + b % 256 % 128 * 2 ^ (i * 7) % 2 ^ 32) (by omega)
        (by simpa using hlen)
        (fun k hk => by simpa using hcont (k + 1) (by omega))
        (by simpa using hclear)
      simpa using hrec

/-- The varuint loop fails with a read error when the input ends while every
byte still has the continuation bit set (and fewer than 6 bytes exist). -/
theorem decode_varuint_aux_eof :
    ∀ (l : List Nat) (i acc : Nat), i + l.length ≤ 5 →
      (∀ k, k < l.length → 128 ≤ l.getD k 0 % 256) →
      decode_varuint_aux l i acc = .error .endOfInput := by
  intro l
  induction l with
  | nil => intro i acc _ _; rfl
  | cons b r ih =>
    intro i acc hlen hcont
    have hr : r.length + 1 = (b :: r).length := by simp
    have h0 : 128 ≤ b % 256 := by simpa using hcont 0 (by simp)
    simp only [decode_varuint_aux, if_neg (by simp at hlen; omega : ¬ 32 ≤ i * 7),
      if_neg (by omega : ¬ b % 256 < 128)]
    exact ih (i + 1) _ (by simp at hlen ⊢; omega)
      (fun k hk => by simpa using hcont (k + 1) (by simp; omega))

/-- The varuint loop fails with a `Numeric` error on the byte at index `m`
(where `m + i = 5`) when the `m` bytes before it all have the continuation bit
set: `checked_shl(35)` is `None` regardless of the continuation bit of that
byte. -/
theorem decode_varuint_aux_overflow :
    ∀ (m : Nat) (l : List Nat) (i acc : Nat), m + i = 5 → m + 1 ≤ l.length →
      (∀ k, k < m → 128 ≤ l.getD k 0 % 256) →
      ∃ cv, decode_varuint_aux l i acc = .error (.numeric cv (l.getD m 0 % 256)) := by
  intro m
  induction m with
  | zero =>
    intro l i acc hm hlen hcont
    cases l with
    | nil => simp at hlen
    | cons b r =>
      refine ⟨acc, ?_⟩
      simp only [decode_varuint_aux, List.getD_cons_zero, if_pos (by omega : 32 ≤ i * 7)]
  | succ m ih =>
    intro l i acc hm hlen hcont
    cases l with
    | nil => simp at hlen
    | cons b r =>
      have h0 : 128 ≤ b % 256 := by simpa using hcont 0 (by omega)
      simp only [decode_varuint_aux, if_neg (by omega : ¬ 32 ≤ i * 7),
        if_neg (by omega : ¬ b % 256 < 128), List.getD_cons_succ]
      exact ih r (i + 1) _ (by omega) (by simpa using hlen)
        (fun k hk => by simpa using hcont (k + 1) (by omega))

/-- Reduction of `slice_section` when enough bytes remain. -/
theorem slice_section_eq (size : Nat) (l : List Nat)
    (k : List Nat → Except DecodeErr WasmSection) (hle : size ≤ l.length) :
    slice_section size l k =
      match k ((l.take size).map (· % 256)) with
      | .error e => .error e
      | .ok s => .ok (s, l.drop size) := by
  unfold slice_section readBytes
  rw [if_pos hle]

/-- A section decoder built on `slice_section` that succeeds on exactly its
payload also succeeds when more input follows, leaving that input untouched:
the slice is cut by declared size, so framing is preserved. -/
theorem slice_section_append (size : Nat) (payload : List Nat) (s : WasmSection)
    (k : List Nat → Except DecodeErr WasmSection)
    (hlen : payload.length = size)
    (h : slice_section size payload k = .ok (s, [])) :
    ∀ rest, slice_section size (payload ++ rest) k = .ok (s, rest) := by
  intro rest
  have ht : payload.take size = payload := by rw [← hlen]; exact List.take_length payload
  have ht' : (payload ++ rest).take size = payload := List.take_left' hlen
  have hd' : (payload ++ rest).drop size = rest := List.drop_left' hlen
  rw [slice_section_eq size payload k (by omega)] at h
  rw [slice_section_eq size (payload ++ rest) k (by simp; omega)]
  rw [ht] at h
  rw [ht', hd']
  cases hk : k (payload.map (· % 256)) with
  | error e => rw [hk] at h; simp at h
  | ok s' =>
    rw [hk] at h
    simp at h
    simp [h.1]

/-- Localization of `decode_section`: success on exactly the payload extends to a
longer stream, resuming right after the payload. -/
theorem decode_section_append (kind size : Nat) (payload : List Nat) (s : WasmSection)
    (hlen : payload.length = size)
    (h : decode_section kind size payload = .ok (s, [])) :
    ∀ rest, decode_section kind size (payload ++ rest) = .ok (s, rest) := by
  intro rest
  unfold decode_section at h ⊢
  cases hk : section_kont kind with
  | none => rw [hk] at h; simp at h
  | some k =>
    rw [hk] at h
    exact slice_section_append size payload s k hlen h rest

end WasmThing

namespace WasmThing

/-- The section loop accepts an exhausted byte source with any fuel. -/
theorem decode_sections_nil (fuel : Nat) : decode_sections fuel [] = .ok [] := by
  cases fuel <;> rfl

/-- The section loop on a concatenation of correctly framed sections consumes
every byte and yields exactly the framed sections in order, for any fuel at
least the input length. -/
theorem decode_sections_flatten :
    ∀ (frames : List (List Nat × WasmSection)),
      (∀ p ∈ frames, FrameOk p.1 p.2) →
      ∀ fuel, (frames.map Prod.fst).flatten.length ≤ fuel →
        decode_sections fuel (frames.map Prod.fst).flatten = .ok (frames.map Prod.snd) := by
  intro frames
  induction frames with
  | nil => intro _ fuel _; simpa using decode_sections_nil fuel
  | cons p frames ih =>
    intro hok fuel hfuel
    obtain ⟨kind, size, payload, hk256, hs32, hf, hplen, hdec⟩ := hok p (by simp)
    have hflat : ((p :: frames).map Prod.fst).flatten
        = kind :: (encodeLEB size ++ (payload ++ (frames.map Prod.fst).flatten)) := by
      simp [hf]
    rw [hflat] at hfuel ⊢
    cases fuel with
    | zero => simp at hfuel
    | succ fu =>
      have h1 : decode_section_type
          (kind :: (encodeLEB size ++ (payload ++ (frames.map Prod.fst).flatten)))
          = .ok ((kind, size), payload ++ (frames.map Prod.fst).flatten) := by
        unfold decode_section_type
        simp [readByte, Nat.mod_eq_of_lt hk256, bind, Except.bind, pure, Except.pure,
          Functor.map, Except.map,
          decode_varuint_encodeLEB size (payload ++ (frames.map Prod.fst).flatten) hs32]
      have h2 : decode_section kind size (payload ++ (frames.map Prod.fst).flatten)
          = .ok (p.2, (frames.map Prod.fst).flatten) :=
        decode_section_append kind size payload p.2 hplen hdec _
      have h3 : decode_sections fu (frames.map Prod.fst).flatten = .ok (frames.map Prod.snd) :=
        ih (fun q hq => hok q (by simp [hq])) fu (by simp at hfuel ⊢; omega)
      simp [decode_sections, h1, h2, h3, bind, Except.bind, pure, Except.pure,
        Functor.map, Except.map]

/-- Lemma: `read_validate` on an input starting with the header constant succeeds and
consumes exactly those 4 bytes. -/
theorem read_validate_append (rest : List Nat) :
    read_validate (HEADER_MAGIC_BYTES ++ rest) = .ok ((), rest) := by
  unfold read_validate readBytes
  have h4 : (4 : Nat) ≤ (HEADER_MAGIC_BYTES ++ rest).length := by simp [HEADER_MAGIC_BYTES]
  have ht : (HEADER_MAGIC_BYTES ++ rest).take 4 = HEADER_MAGIC_BYTES :=
    List.take_left' (by simp [HEADER_MAGIC_BYTES])
  have hd : (HEADER_MAGIC_BYTES ++ rest).drop 4 = rest :=
    List.drop_left' (by simp [HEADER_MAGIC_BYTES])
  rw [if_pos h4, ht, hd]
  simp [HEADER_MAGIC_BYTES]

/-- Lemma: `read_version` on a 4-byte version field consumes exactly those 4 bytes. -/
theorem read_version_append (vb rest : List Nat) (hlen : vb.length = 4) :
    ∃ v, read_version (vb ++ rest) = .ok (v, rest) := by
  unfold read_version readBytes
  have h4 : (4 : Nat) ≤ (vb ++ rest).length := by simp; omega
  have ht : (vb ++ rest).take 4 = vb := List.take_left' hlen
  have hd : (vb ++ rest).drop 4 = rest := List.drop_left' hlen
  rw [if_pos h4, ht, hd]
  exact ⟨_, rfl⟩

end WasmThing

namespace WasmThing

/-- C1: the claim states that `read_validate` succeeds exactly on inputs whose
first 4 bytes are the ASCII magic `\0asm` (`00 61 73 6d`).  The constant
`HEADER_MAGIC_BYTES` in the code is `00 61 73 64` (`\0asd`): the real WebAssembly
magic is rejected with a `Binary` error (carrying expected/found as best-effort
UTF-8) and `\0asd` is accepted, contradicting the source comment on the
constant (`the magic bytes expected at the start of a valid WebAssembly
binary`). -/
theorem c1_read_validate_magic : read_validate [0x00, 0x61, 0x73, 0x6d]
      = .error (.binary [0x00, 0x61, 0x73, 0x64] [0x00, 0x61, 0x73, 0x6d])
    ∧ read_validate ([0x00, 0x61, 0x73, 0x64] ++ [0xde, 0xad]) = .ok ((), [0xde, 0xad]) :=
  ⟨rfl, rfl⟩

/-- C2: the claim states that a 5th byte whose 7-bit group has bits at or above
bit 32 makes `decode_varuint` fail with `Numeric`, never wrapping or
truncating.  The `checked_shl` call in the code only rejects shift amounts ≥ 32, so on
`80 80 80 80 10` (the LEB128 encoding of `2^32`) the group `0x10 << 28` loses
bit 32 and the decode returns `Ok(0)` — silent truncation.  Only the
6-or-more-bytes case (second conjunct) produces the claimed `Numeric` error. -/
theorem c2_decode_varuint_truncates : decode_varuint [0x80, 0x80, 0x80, 0x80, 0x10] = .ok (0, [])
    ∧ decode_varuint [0x80, 0x80, 0x80, 0x80, 0x80, 0x01] = .error (.numeric 0 1) :=
  ⟨rfl, rfl⟩

/-- C3: the claim states the byte-to-value-type conversion returns
`UNSUPPORTED` on every byte outside `{0x7f, 0x7e, 0x7d, 0x7c}` instead of
failing or panicking.  The conversion `From<u8> for WasmValueType` in the code hits
`unreachable!` (a panic, modelled as `none` / `panicUnreachable`) on such
bytes, and the panic is reachable from untrusted input through
the value-type byte of `decode_global_type`. -/
theorem c3_value_type_conversion_panics : wasmValueTypeFromU8 0x7b = none
    ∧ decode_global_type [0x7b, 0x00] = .error (.panicUnreachable 0x7b) :=
  ⟨rfl, rfl⟩

/-- C4: varuint round-trip — for every `u32` value `v`, `decode_varuint` on the
LEB128 encoding of `v` (followed by anything) consumes exactly the bytes of
the encoding and yields `v`. -/
theorem c4_varuint_round_trip (v : Nat) (rest : List Nat) (hv : v < 2 ^ 32) :
    decode_varuint (encodeLEB v ++ rest) = .ok (v, rest) :=
  decode_varuint_encodeLEB v rest hv

/-- C4 witness: the round-trip at `v = 300` with a trailing byte. -/
theorem c4_varuint_round_trip_witness :
    300 < 2 ^ 32 ∧ decode_varuint (encodeLEB 300 ++ [9]) = .ok (300, [9]) :=
  ⟨by norm_num, c4_varuint_round_trip 300 [9] (by norm_num)⟩

/-- C5: section framing — a module made of the 4-byte header, a 4-byte version
and any concatenation of correctly framed sections decodes successfully,
consuming the whole input and producing exactly those sections in order;
a final section whose declared payload is truncated, or whose size varuint is
missing entirely, fails with a read error rather than silently stopping. -/
theorem c5_section_framing (vb : List Nat) (frames : List (List Nat × WasmSection))
    (hvb : vb.length = 4) (hframes : ∀ p ∈ frames, FrameOk p.1 p.2) :
    (∃ version, decode_bytes (HEADER_MAGIC_BYTES ++ vb ++ (frames.map Prod.fst).flatten)
        = .ok (version, frames.map Prod.snd))
    ∧ (∀ kind size payload fuel, kind ∈ [0, 1, 2, 4, 5, 6, 8, 9] → size < 2 ^ 32 →
        payload.length < size →
        decode_sections (fuel + 1) (kind :: (encodeLEB size ++ payload)) = .error .endOfInput)
    ∧ (∀ kind fuel, decode_sections (fuel + 1) [kind] = .error .endOfInput) := by
  refine ⟨?_, ?_, ?_⟩
  · obtain ⟨ver, hver⟩ := read_version_append vb (frames.map Prod.fst).flatten hvb
    refine ⟨ver, ?_⟩
    rw [List.append_assoc]
    have hval := read_validate_append (vb ++ (frames.map Prod.fst).flatten)
    have hsec := decode_sections_flatten frames hframes (frames.map Prod.fst).flatten.length
      le_rfl
    have hlen : (List.map (List.length ∘ Prod.fst) frames).sum
        = (List.map Prod.fst frames).flatten.length := by simp
    simp [decode_bytes, hval, hver, bind, Except.bind, pure, Except.pure]
    rw [hlen, hsec]
  · intro kind size payload fuel hkind hsize hlen
    have h256 : kind % 256 = kind := by fin_cases hkind <;> rfl
    have hkont : ∃ k, section_kont kind = some k := by fin_cases hkind <;> exact ⟨_, rfl⟩
    obtain ⟨k, hk⟩ := hkont
    have h1 : decode_section_type (kind :: (encodeLEB size ++ payload))
        = .ok ((kind, size), payload) := by
      unfold decode_section_type
      simp [readByte, h256, bind, Except.bind, pure, Except.pure, Functor.map, Except.map,
        decode_varuint_encodeLEB size payload hsize]
    have h2 : decode_section kind size payload = .error .endOfInput := by
      unfold decode_section
      rw [hk]
      unfold slice_section readBytes
      rw [if_neg (by omega)]
    simp [decode_sections, h1, h2, bind, Except.bind, pure, Except.pure, Functor.map,
      Except.map]
  · intro kind fuel
    simp [decode_sections, decode_section_type, readByte, decode_varuint, decode_varuint_aux,
      bind, Except.bind, pure, Except.pure, Functor.map, Except.map]

/-- C5 witness: a module with version 1 and one custom section of size 2
decodes to exactly that section. -/
theorem c5_section_framing_witness :
    ∃ version, decode_bytes (HEADER_MAGIC_BYTES ++ [1, 0, 0, 0] ++ [0, 2, 0xaa, 0xbb])
      = .ok (version, [WasmSection.Custom]) := by
  have hf : ∀ p ∈ [([0, 2, 0xaa, 0xbb], WasmSection.Custom)], FrameOk p.1 p.2 := by
    intro p hp
    simp only [List.mem_singleton] at hp
    subst hp
    exact ⟨0, 2, [0xaa, 0xbb], by norm_num, by norm_num, rfl, rfl, rfl⟩
  exact (c5_section_framing [1, 0, 0, 0] [([0, 2, 0xaa, 0xbb], .Custom)] rfl hf).1

/-- C6: the claim states the type-section payload `01 60 01 7f 01 7e` decodes
to one `WasmFunctionType` with `params = [I32]`, `returns = [I64]`.  The code
evaluates both `param_count` and `return_count` before reading any value
types, so `return_count` is read from the first param-type byte `0x7f`
(becoming 127) and the first value type is then read from the byte `0x01`,
which hits the `unreachable!` panic — contradicting the doc comment of the
function itself, which places each count immediately before its types.  The second
conjunct shows the part of the claim the code does satisfy: a missing `0x60`
magic fails the section with `TypeSectionBytes`. -/
theorem c6_type_section_misparses_example :
    decode_type_section 6 [0x01, 0x60, 0x01, 0x7f, 0x01, 0x7e] = .error (.panicUnreachable 1)
    ∧ decode_type_section 2 [0x01, 0x61] = .error .typeSectionBytes :=
  ⟨rfl, rfl⟩

/-- C7: the import-section payload `01 03 6d6f64 05 6669656c64 00 00` decodes
to exactly one entry with module name `mod`, field name `field` and descriptor
`Function 0`; every kind byte above `0x03` fails the descriptor decode with the
invalid-import-kind error; and the entry loop preserves declaration order
(decoding `n + 1` entries conses the first decoded entry onto the remaining
`n`). -/
theorem c7_import_section_decoding :
    (decode_import_section 13
        [0x01, 0x03, 0x6d, 0x6f, 0x64, 0x05, 0x66, 0x69, 0x65, 0x6c, 0x64, 0x00, 0x00]
      = .ok (.Import [⟨[0x6d, 0x6f, 0x64], [0x66, 0x69, 0x65, 0x6c, 0x64], .Function 0⟩], []))
    ∧ (∀ kind l, 0x03 < kind → decode_import_descriptor kind l
        = .error (.invalidImportKind kind))
    ∧ (∀ n l e r es r', decode_import_entry l = .ok (e, r) →
        decode_import_entries n r = .ok (es, r') →
        decode_import_entries (n + 1) l = .ok (e :: es, r')) := by
  refine ⟨rfl, ?_, ?_⟩
  · intro kind l hk
    unfold decode_import_descriptor
    rw [if_neg (by omega), if_neg (by omega), if_neg (by omega), if_neg (by omega)]
  · intro n l e r es r' h1 h2
    simp [decode_import_entries, h1, h2, bind, Except.bind, pure, Except.pure]

/-- C7 witness: kind byte 7 is rejected. -/
theorem c7_import_section_decoding_witness :
    decode_import_descriptor 7 [] = .error (.invalidImportKind 7) :=
  c7_import_section_decoding.2.1 7 [] (by norm_num)

/-- C8: `decode_global_type` maps mutability byte `0x00` to `Immutable` and
`0x01` to `Mutable`, and fails with `MutabilityByte` carrying the byte for
every other mutability byte — stated for inputs whose value-type byte is
recognized (otherwise the value-type conversion panics first, see C3). -/
theorem c8_global_type_mutability (v m : Nat) (vt : WasmValueType) (rest : List Nat)
    (hv : wasmValueTypeFromU8 (v % 256) = some vt) (hm : m < 256) :
    (decode_global_type (v :: 0x00 :: rest) = .ok (⟨vt, .Immutable⟩, rest))
    ∧ (decode_global_type (v :: 0x01 :: rest) = .ok (⟨vt, .Mutable⟩, rest))
    ∧ (m ≠ 0x00 → m ≠ 0x01 →
        decode_global_type (v :: m :: rest) = .error (.mutabilityByte m)) := by
  have hm' : m % 256 = m := Nat.mod_eq_of_lt hm
  refine ⟨?_, ?_, ?_⟩
  · simp [decode_global_type, readByte, hv, bind, Except.bind, pure, Except.pure]
  · simp [decode_global_type, readByte, hv, bind, Except.bind, pure, Except.pure]
  · intro h0 h1
    simp [decode_global_type, readByte, hv, hm', h0, h1, bind, Except.bind, pure, Except.pure]

/-- C8 witness: mutability byte `0x02` after value type `0x7f` fails with
`MutabilityByte 2`, and byte `0x00` gives an immutable I32 global. -/
theorem c8_global_type_mutability_witness :
    decode_global_type [0x7f, 0x02] = .error (.mutabilityByte 2)
    ∧ decode_global_type [0x7f, 0x00] = .ok (⟨.I32, .Immutable⟩, []) :=
  ⟨(c8_global_type_mutability 0x7f 2 .I32 [] rfl (by norm_num)).2.2 (by norm_num) (by norm_num),
   (c8_global_type_mutability 0x7f 0 .I32 [] rfl (by norm_num)).1⟩

/-- C9: an opaque (`dummy`) section decode with declared size `N` consumes
exactly `N` bytes of the primary stream — whatever their content — and returns
the payload-less marker, so decoding continues at the byte right after the
payload; it fails (with a read error) exactly when fewer than `N` bytes
remain. -/
theorem c9_dummy_section_exact_consumption (sec : WasmSection) (size : Nat) (l : List Nat) :
    (size ≤ l.length → decode_dummy_section sec size l = .ok (sec, l.drop size))
    ∧ (l.length < size → decode_dummy_section sec size l = .error .endOfInput) := by
  constructor
  · intro h
    unfold decode_dummy_section
    rw [slice_section_eq size l _ h]
  · intro h
    unfold decode_dummy_section slice_section readBytes
    rw [if_neg (by omega)]

/-- C9 witness: a custom section of size 2 over a 3-byte stream consumes
exactly its 2 payload bytes, and a start section of size 3 over a 1-byte
stream fails. -/
theorem c9_dummy_section_exact_consumption_witness :
    decode_dummy_section .Custom 2 [5, 6, 7] = .ok (.Custom, [7])
    ∧ decode_dummy_section .Start 3 [5] = .error .endOfInput :=
  ⟨(c9_dummy_section_exact_consumption .Custom 2 [5, 6, 7]).1 (by norm_num),
   (c9_dummy_section_exact_consumption .Start 3 [5]).2 (by norm_num)⟩

/-- C10 counterexample: the claim states `decode_varuint` returns as soon as a
continuation-clear byte appears among the first 6 bytes.  On
`80 80 80 80 80 00` the 6th byte has its continuation bit clear, yet the
decode fails with a `Numeric` error (the `checked_shl(35)` overflow check runs
before the continuation bit is examined), so no value is returned. -/
theorem c10_sixth_byte_clear_still_fails :
    decode_varuint [0x80, 0x80, 0x80, 0x80, 0x80, 0x00] = .error (.numeric 0 0) := rfl

/-- C10 (amended): `decode_varuint` examines at most 6 bytes and always
terminates: it returns as soon as a continuation-clear byte appears among the
first 5 bytes (consuming exactly the bytes up to it), fails with a read error
if the input ends while every byte so far had the continuation bit set, and
otherwise fails with a `Numeric` error on the 6th byte — regardless of that
continuation bit of that byte — because the shift of 35 bits exceeds the `u32`
width.  The three cases are exhaustive, so no byte stream causes unbounded
work in the varuint primitive. -/
theorem c10_varuint_bounded (l : List Nat) :
    (∀ j, j ≤ 4 → j < l.length → (∀ k, k < j → 128 ≤ l.getD k 0 % 256) →
        l.getD j 0 % 256 < 128 → ∃ v, decode_varuint l = .ok (v, l.drop (j + 1)))
    ∧ (l.length ≤ 5 → (∀ k, k < l.length → 128 ≤ l.getD k 0 % 256) →
        decode_varuint l = .error .endOfInput)
    ∧ (6 ≤ l.length → (∀ k, k ≤ 4 → 128 ≤ l.getD k 0 % 256) →
        ∃ cv, decode_varuint l = .error (.numeric cv (l.getD 5 0 % 256))) := by
  refine ⟨?_, ?_, ?_⟩
  · intro j hj hlen hcont hclear
    exact decode_varuint_aux_clear j l 0 0 (by omega) hlen hcont hclear
  · intro hlen hcont
    exact decode_varuint_aux_eof l 0 0 (by omega) hcont
  · intro hlen hcont
    exact decode_varuint_aux_overflow 5 l 0 0 (by omega) (by omega)
      (fun k hk => hcont k (by omega))

/-- C10 witness: on `2a 99` the first byte is continuation-clear, so the
decode returns after exactly one byte. -/
theorem c10_varuint_bounded_witness :
    ∃ v, decode_varuint [0x2a, 0x99] = .ok (v, [0x99]) := by
  have h := (c10_varuint_bounded [0x2a, 0x99]).1 0 (by norm_num) (by norm_num)
    (fun k hk => absurd hk (Nat.not_lt_zero k)) (by decide)
  simpa using h

end WasmThing
